import Mathlib

/-!
Verification development for the llmlocalai chat client.

Shallow embedding of the frontend chat session logic:
- `src/frontend/src/components/Chat.jsx` (`sendQuery`, `escapeHtml`,
  `stripHtml`, `cancelRequest`),
- the App component in `src/unnamed/part_003` (`addMessage`,
  `replaceLastAssistant`, `setSourceList`),
- the Sources panel in `src/unnamed/part_002` (the filter predicate).

JavaScript strings are modelled as Lean `String` (with `List Char` data),
absent object fields as `Option`, and the `AbortController` tokens as `Nat`
identifiers.  `new Date().toLocaleTimeString()` is threaded through as an
explicit `now : String` parameter.  JS truthiness on strings (`if (x)`)
is modelled as "present and non-empty"; truthiness on arrays is always
true, so `data.sources || data.results || []` falls through only on
absent fields.
-/

/-- The double-quote character (34) and apostrophe (39), named to keep the
source text free of quote characters outside string literals. -/
def quoteChar : Char := Char.ofNat 34

/-- The apostrophe character. -/
def aposChar : Char := Char.ofNat 39

/-- The backtick character, used by the markdown code-fence stripper. -/
def backquoteChar : Char := Char.ofNat 96

/-- The backslash character. -/
def backslashChar : Char := Char.ofNat 92

/-- Message roles: the client only ever stores user and assistant messages. -/
inductive Role where
  | user : Role
  | assistant : Role
deriving DecidableEq

/-- A chat message as stored by the App component:
`{ role, content, time }` where `content` is pre-rendered markup and
`time` is a display string. -/
structure Message where
  role : Role
  content : String
  time : String
deriving DecidableEq

/-- A backend-reported source entry.  The Sources panel reads `name`,
`path`, `reason_detail` (each possibly absent, hence `Option`) and
`size_bytes`; other fields are not consumed by the filter logic. -/
structure Source where
  name : Option String
  path : Option String
  reason_detail : Option String
  size_bytes : Option Nat
deriving DecidableEq

/-- The parsed body of an `/ask` response, with the four fields the
client consumes: `answer`, `markdown`, `sources`, `results`. -/
structure AskResponse where
  answer : Option String
  markdown : Option String
  sources : Option (List Source)
  results : Option (List Source)
deriving DecidableEq

/-- The client session state: the App component's `messages` and `sources`
state plus the Chat component's `sending` flag and `abortRef` list of
outstanding request tokens.  `aborted` records tokens on which `abort()`
has been called; `nextId` supplies fresh token identifiers. -/
structure ChatState where
  messages : List Message
  sources : List Source
  sending : Bool
  controllers : List Nat
  aborted : List Nat
  nextId : Nat
deriving DecidableEq

/-- `hasPre l p` is true when `p` is a prefix of `l` (char-by-char). -/
def hasPre : List Char → List Char → Bool
  | _, [] => true
  | [], _ :: _ => false
  | c :: cs, p :: ps => (c == p) && hasPre cs ps

/-- `hasSubstr l p` models JavaScript `l.includes(p)`: `p` occurs as a
contiguous substring of `l`. -/
def hasSubstr (l p : List Char) : Bool :=
  match l with
  | [] => hasPre [] p
  | _ :: cs => hasPre l p || hasSubstr cs p

/-- Per-character lowercasing, modelling `String.prototype.toLowerCase`. -/
def toLowerStr (s : String) : String := ⟨s.data.map Char.toLower⟩

/-- One step of `escapeHtml`: the replacement for a single character from
`text.replace(/[&<>"']/g, c => ({...}[c]))` in Chat.jsx. -/
def escapeHtmlChar (c : Char) : List Char :=
  if c = '&' then ['&', 'a', 'm', 'p', ';']
  else if c = '<' then ['&', 'l', 't', ';']
  else if c = '>' then ['&', 'g', 't', ';']
  else if c = quoteChar then ['&', 'q', 'u', 'o', 't', ';']
  else if c = aposChar then ['&', '#', '0', '3', '9', ';']
  else [c]

/-- `escapeHtml` on character lists. -/
def escapeHtmlList : List Char → List Char
  | [] => []
  | c :: cs => escapeHtmlChar c ++ escapeHtmlList cs

/-- `escapeHtml` from Chat.jsx.  The JS guard `if (!text) return ''` is
the identity on the empty string, so the pure per-character replacement
is an exact model on strings. -/
def escapeHtml (s : String) : String := ⟨escapeHtmlList s.data⟩

/-- Single-pass worker for `stripHtml` (`html.replace(/<[^>]*>/g, '')`).
The second argument is `none` outside a candidate tag; `some buf` means a
`<` was seen and `buf` holds (reversed) the characters read since.  A
candidate tag ends at the first following `>` (the regex class `[^>]*`
forbids `>` inside) and is then dropped.  If the input ends with an open
candidate, no match containing that `<` exists (every match needs a `>`,
and none occurs later), so the buffered text is emitted verbatim. -/
def stripHtmlGo : List Char → Option (List Char) → List Char
  | [], none => []
  | [], some buf => '<' :: buf.reverse
  | c :: cs, none => if c = '<' then stripHtmlGo cs (some []) else c :: stripHtmlGo cs none
  | c :: cs, some buf => if c = '>' then stripHtmlGo cs none else stripHtmlGo cs (some (c :: buf))

/-- `stripHtml` from Chat.jsx: remove every `<...>` run. -/
def stripHtml (s : String) : String := ⟨stripHtmlGo s.data none⟩

/-- Drop a leading `text` if present (the optional `(?:text)?` group of the
markdown cleaning regex in Chat.jsx). -/
def dropTextTag (l : List Char) : List Char :=
  if hasPre l ['t', 'e', 'x', 't'] then l.drop 4 else l

/-- Drop a leading literal backslash-`n` if present (the regex source
spells `\\n?`, which inside a regex literal is an escaped backslash
followed by `n`, i.e. the two characters `\` and `n`). -/
def dropBackslashN (l : List Char) : List Char :=
  if hasPre l [backslashChar, 'n'] then l.drop 2 else l

/-- Worker for `markdown.replace(/```(?:text)?\\n?|```/g, '')` in
Chat.jsx.  The regex matches, at each occurrence of three backticks, the
backticks plus an optional `text` plus an optional literal `\n` pair (the
left alternative always applies when three backticks are found, so the
bare-backticks alternative adds nothing); the match is removed and
scanning resumes after it. -/
def cleanMarkdownList (l : List Char) : List Char :=
  match l with
  | c1 :: c2 :: c3 :: rest =>
    if c1 = backquoteChar ∧ c2 = backquoteChar ∧ c3 = backquoteChar then
      cleanMarkdownList (dropBackslashN (dropTextTag rest))
    else c1 :: cleanMarkdownList (c2 :: c3 :: rest)
  | c :: rest => c :: cleanMarkdownList rest
  | [] => []
termination_by l.length
decreasing_by
  · have h1 : (dropTextTag rest).length ≤ rest.length := by
      unfold dropTextTag
      split <;> simp
    have h2 : (dropBackslashN (dropTextTag rest)).length ≤ (dropTextTag rest).length := by
      unfold dropBackslashN
      split <;> simp
    simp only [List.length_cons]
    omega
  · simp only [List.length_cons]
    omega
  · simp

/-- The code-fence cleaning step applied to a `markdown` response field. -/
def cleanMarkdown (s : String) : String := ⟨cleanMarkdownList s.data⟩

/-- The pending placeholder content appended by `sendQuery` while a
request is in flight. -/
def placeholderContent : String :=
  "<div class=\x22loading inline\x22><span class=\x22spinner\x22></span>Thinking...</div>"

/-- The cancellation notice written by the `AbortError` branch. -/
def cancelNotice : String := "<div class=\x27muted\x27>Request canceled.</div>"

/-- The placeholder test from `replaceLastAssistant` in the App component:
`content.includes('Thinking') || content.includes('spinner') ||
content.includes('Thinking...')`. -/
def isPlaceholder (content : String) : Bool :=
  hasSubstr content.data "Thinking".data
    || hasSubstr content.data "spinner".data
    || hasSubstr content.data "Thinking...".data

/-- `addMessage(role, content)` from the App component: append a message
with a captured timestamp. -/
def addMessage (role : Role) (content now : String) (st : ChatState) : ChatState :=
  { st with messages := st.messages ++ [⟨role, content, now⟩] }

/-- `setSourceList(list)` from the App component: wholesale replacement
of the sources state. -/
def setSourceList (l : List Source) (st : ChatState) : ChatState :=
  { st with sources := l }

/-- The match condition of the `replaceLastAssistant` loop:
`copy[i].role === 'assistant' &&
 (content.includes('Thinking') || content.includes('spinner') ||
  content.includes('Thinking...'))`. -/
def isTarget (m : Message) : Prop :=
  m.role = Role.assistant ∧ isPlaceholder m.content = true

instance (m : Message) : Decidable (isTarget m) :=
  inferInstanceAs (Decidable (m.role = Role.assistant ∧ isPlaceholder m.content = true))

/-- Scanning worker for `replaceLastAssistant`: the JS loop walks indices
from the end of the array downwards and rewrites the first (i.e. the
last-indexed) assistant message whose content passes the placeholder
test.  Here, a match found in the tail (later indices) takes priority
over the head element; `none` means no message matched. -/
def rlaAux (c now : String) : List Message → Option (List Message)
  | [] => none
  | m :: rest =>
    match rlaAux c now rest with
    | some rest' => some (m :: rest')
    | none =>
      if isTarget m then some ({ m with content := c, time := now } :: rest) else none

/-- `replaceLastAssistant(newContent)` on the message list: overwrite the
last placeholder assistant message in place, or append a fresh assistant
message when none exists (the `// fallback: append` branch). -/
def replaceLastAssistantList (c now : String) (msgs : List Message) : List Message :=
  match rlaAux c now msgs with
  | some out => out
  | none => msgs ++ [⟨Role.assistant, c, now⟩]

/-- `replaceLastAssistant` lifted to the session state. -/
def replaceLastAssistant (c now : String) (st : ChatState) : ChatState :=
  { st with messages := replaceLastAssistantList c now st.messages }

/-- The synchronous phase of `sendQuery(q)` in Chat.jsx, up to the point
the `fetch` is issued: the guard `if (!q || sending) return` (for a
string, `!q` is `q === ''`), then `setSending(true)`, pushing a fresh
`AbortController` onto `abortRef.current`, and appending the user message
and the loading placeholder. -/
def sendPhase (q now : String) (st : ChatState) : ChatState :=
  if q = "" ∨ st.sending = true then st
  else
    { st with
        sending := true
        controllers := st.controllers ++ [st.nextId]
        nextId := st.nextId + 1
        messages := st.messages ++
          [⟨Role.user, "<div>" ++ escapeHtml q ++ "</div>", now⟩,
           ⟨Role.assistant, placeholderContent, now⟩] }

/-- The success continuation of `sendQuery` (after `resp.json()`):
`if (data.answer) replaceLastAssistant(...)` — JS truthiness, so an
absent or empty `answer` skips the replacement; `if (data.markdown)`
appends a `<pre>` message with code fences cleaned, with the same
truthiness guard; then `setSourceList(data.sources || data.results ||
[])`, where an array (even empty) is truthy and only an absent field
falls through. -/
def resolveSuccess (d : AskResponse) (now : String) (st : ChatState) : ChatState :=
  let st1 :=
    match d.answer with
    | some a => if a = "" then st else replaceLastAssistant ("<div>" ++ escapeHtml a ++ "</div>") now st
    | none => st
  let st2 :=
    match d.markdown with
    | some md =>
        if md = "" then st1
        else addMessage Role.assistant ("<pre>" ++ escapeHtml (cleanMarkdown md) ++ "</pre>") now st1
    | none => st1
  setSourceList (d.sources.getD (d.results.getD [])) st2

/-- The messages appended by the `markdown` branch of `resolveSuccess`
(empty when the field is absent or empty). -/
def markdownExtra (d : AskResponse) (now : String) : List Message :=
  match d.markdown with
  | some md =>
      if md = "" then []
      else [⟨Role.assistant, "<pre>" ++ escapeHtml (cleanMarkdown md) ++ "</pre>", now⟩]
  | none => []

/-- `cancelRequest()` in Chat.jsx: call `abort()` on every controller in
`abortRef.current`, then reset the list to `[]` and clear the sending
flag.  Calling `abort()` is modelled by moving the token into `aborted`. -/
def cancelRequest (st : ChatState) : ChatState :=
  { st with
      aborted := st.aborted ++ st.controllers
      controllers := []
      sending := false }

/-- The `AbortError` catch branch plus the `finally` block of `sendQuery`
for the request carrying token `tok`: replace the placeholder with the
cancellation notice, clear the sending flag, and splice this token out of
`abortRef.current` (`splice` removes the first occurrence when present,
as `List.erase` does). -/
def resolveAborted (tok : Nat) (now : String) (st : ChatState) : ChatState :=
  { st with
      messages := replaceLastAssistantList cancelNotice now st.messages
      sending := false
      controllers := st.controllers.erase tok }

/-- The filter predicate of the Sources panel (part_002): an empty filter
keeps everything; otherwise the lowercased filter must occur in the
lowercased `name`, `path`, or `reason_detail` field (absent fields read
as the empty string via `s.name||''`). -/
def matchesFilter (f : String) (s : Source) : Bool :=
  if f = "" then true
  else
    hasSubstr (toLowerStr (s.name.getD "")).data (toLowerStr f).data
      || hasSubstr (toLowerStr (s.path.getD "")).data (toLowerStr f).data
      || hasSubstr (toLowerStr (s.reason_detail.getD "")).data (toLowerStr f).data

/-- The visible entries of the Sources panel: `sources.filter(s => ...)`. -/
def visibleSources (f : String) (sources : List Source) : List Source :=
  sources.filter (fun s => matchesFilter f s)

/-- Fixture: a stored user message. -/
def userMsg0 : Message := ⟨Role.user, "<div>hi</div>", "t0"⟩

/-- Fixture: the pending placeholder message appended by `sendQuery`. -/
def phMsg0 : Message := ⟨Role.assistant, placeholderContent, "t0"⟩

/-- Fixture: a source entry from a previously completed query. -/
def src1 : Source := ⟨some "a.txt", some "C:/docs/a.txt", some "keyword", some 1024⟩

/-- Fixture: a source entry carried by a fresh response. -/
def src2 : Source := ⟨some "b.txt", some "C:/docs/b.txt", none, some 2048⟩

/-- Fixture: session state with one request in flight (the placeholder is
the last message) and the previous query's source list still showing. -/
def stPending : ChatState := ⟨[userMsg0, phMsg0], [src1], true, [0], [], 1⟩

/-- Fixture: idle session state. -/
def stIdle : ChatState := ⟨[], [], false, [], [], 0⟩

/-- Fixture: a successful response with a non-empty answer and sources. -/
def answerResp : AskResponse := ⟨some "Paris", none, some [src2], none⟩

/-- Fixture: a response carrying an empty-string `answer` field. -/
def emptyAnswerResp : AskResponse := ⟨some "", none, some [src2], none⟩

/-- Fixture: a response with no `answer` and only a `results` field. -/
def noAnswerResp : AskResponse := ⟨none, none, none, some [src2]⟩

/-- Fixture: a source whose path contains `abc` but whose name does not. -/
def cexSrcA : Source := ⟨some "x", some "abc", none, none⟩

/-- Fixture: a source whose name contains `abc` but whose path does not. -/
def cexSrcB : Source := ⟨some "abc", some "zzz", none, none⟩

example : stripHtml "<div>hello</div>" = "hello" := by decide
example : stripHtml "a<b" = "a<b" := by decide
example : stripHtml "x<a<b>y" = "xy" := by decide
example : escapeHtml "a&b" = "a&amp;b" := by decide
example : hasSubstr "hello world".data "lo w".data = true := by decide
example : isPlaceholder placeholderContent = true := by decide

example :
    replaceLastAssistantList "done" "t1" [userMsg0, phMsg0]
      = [userMsg0, ⟨Role.assistant, "done", "t1"⟩] := by decide

example :
    replaceLastAssistantList "done" "t1" [userMsg0]
      = [userMsg0, ⟨Role.assistant, "done", "t1"⟩] := by decide

example :
    (sendPhase "hi" "t0" stIdle).messages
      = [⟨Role.user, "<div>hi</div>", "t0"⟩, ⟨Role.assistant, placeholderContent, "t0"⟩] := by
  decide

example : sendPhase "hi" "t0" stPending = stPending := by decide

theorem rlaAux_eq_none_iff (c t : String) (msgs : List Message) :
    rlaAux c t msgs = none ↔ ∀ m ∈ msgs, ¬ isTarget m := by
  induction msgs with
  | nil => simp [rlaAux]
  | cons m rest ih =>
    constructor
    · intro hnone x hx
      simp only [rlaAux] at hnone
      cases h : rlaAux c t rest with
      | some out => simp only [h] at hnone; simp at hnone
      | none =>
        simp only [h] at hnone
        simp only [List.mem_cons] at hx
        rcases hx with rfl | hx
        · intro hcond
          rw [if_pos hcond] at hnone
          simp at hnone
        · exact (ih.mp h) x hx
    · intro hall
      have hrest : rlaAux c t rest = none :=
        ih.mpr (fun x hx => hall x (List.mem_cons_of_mem _ hx))
      simp only [rlaAux, hrest]
      rw [if_neg (hall m (List.mem_cons_self _ _))]

theorem rlaAux_some (c t : String) (msgs out : List Message) (h : rlaAux c t msgs = some out) :
    ∃ l m r, msgs = l ++ m :: r ∧ isTarget m ∧ (∀ m' ∈ r, ¬ isTarget m')
      ∧ out = l ++ { m with content := c, time := t } :: r := by
  induction msgs generalizing out with
  | nil => simp [rlaAux] at h
  | cons m0 rest ih =>
    simp only [rlaAux] at h
    cases hr : rlaAux c t rest with
    | some out' =>
      simp only [hr, Option.some.injEq] at h
      obtain ⟨l, m, r, hdecomp, h1, h2, h3⟩ := ih out' hr
      exact ⟨m0 :: l, m, r, by rw [hdecomp, List.cons_append], h1, h2,
        by rw [← h, h3, List.cons_append]⟩
    | none =>
      simp only [hr] at h
      by_cases hcond : isTarget m0
      · rw [if_pos hcond] at h
        simp only [Option.some.injEq] at h
        exact ⟨[], m0, rest, rfl, hcond, (rlaAux_eq_none_iff c t rest).mp hr,
          by rw [← h]; rfl⟩
      · rw [if_neg hcond] at h
        simp at h

theorem rlaAux_last (c t : String) (init : List Message) (m : Message) (hm : isTarget m) :
    rlaAux c t (init ++ [m]) = some (init ++ [{ m with content := c, time := t }]) := by
  induction init with
  | nil =>
    simp only [List.nil_append, rlaAux]
    rw [if_pos hm]
  | cons m0 rest ih =>
    simp only [List.cons_append, rlaAux, List.append_eq, ih]

theorem replaceLastAssistantList_last (c t : String) (init : List Message) (m : Message)
    (hm : isTarget m) :
    replaceLastAssistantList c t (init ++ [m]) = init ++ [{ m with content := c, time := t }] := by
  unfold replaceLastAssistantList
  rw [rlaAux_last c t init m hm]

theorem escapeHtmlChar_no_markup (c d : Char) (hd : d ∈ escapeHtmlChar c) :
    d ≠ '<' ∧ d ≠ '>' ∧ d ≠ quoteChar ∧ d ≠ aposChar := by
  unfold escapeHtmlChar at hd
  split_ifs at hd with h1 h2 h3 h4 h5
  · simp only [List.mem_cons, List.not_mem_nil, or_false] at hd
    rcases hd with rfl | rfl | rfl | rfl | rfl <;> decide
  · simp only [List.mem_cons, List.not_mem_nil, or_false] at hd
    rcases hd with rfl | rfl | rfl | rfl <;> decide
  · simp only [List.mem_cons, List.not_mem_nil, or_false] at hd
    rcases hd with rfl | rfl | rfl | rfl <;> decide
  · simp only [List.mem_cons, List.not_mem_nil, or_false] at hd
    rcases hd with rfl | rfl | rfl | rfl | rfl | rfl <;> decide
  · simp only [List.mem_cons, List.not_mem_nil, or_false] at hd
    rcases hd with rfl | rfl | rfl | rfl | rfl | rfl <;> decide
  · simp only [List.mem_singleton] at hd
    subst hd
    exact ⟨h2, h3, h4, h5⟩

theorem escapeHtmlList_no_markup (l : List Char) (d : Char) (hd : d ∈ escapeHtmlList l) :
    d ≠ '<' ∧ d ≠ '>' ∧ d ≠ quoteChar ∧ d ≠ aposChar := by
  induction l with
  | nil => simp [escapeHtmlList] at hd
  | cons c cs ih =>
    simp only [escapeHtmlList, List.mem_append] at hd
    rcases hd with hd | hd
    · exact escapeHtmlChar_no_markup c d hd
    · exact ih hd

theorem escapeHtmlChar_length_pos (c : Char) : 1 ≤ (escapeHtmlChar c).length := by
  unfold escapeHtmlChar
  split_ifs <;> simp

theorem escapeHtmlList_length_ge (l : List Char) : l.length ≤ (escapeHtmlList l).length := by
  induction l with
  | nil => simp [escapeHtmlList]
  | cons c cs ih =>
    simp only [escapeHtmlList, List.length_append, List.length_cons]
    have := escapeHtmlChar_length_pos c
    omega

theorem escapeHtmlList_eq_self_iff (l : List Char) :
    escapeHtmlList l = l ↔
      ∀ c ∈ l, c ≠ '&' ∧ c ≠ '<' ∧ c ≠ '>' ∧ c ≠ quoteChar ∧ c ≠ aposChar := by
  induction l with
  | nil => simp [escapeHtmlList]
  | cons c cs ih =>
    constructor
    · intro h
      unfold escapeHtmlList escapeHtmlChar at h
      split_ifs at h with h1 h2 h3 h4 h5
      · subst h1
        have hlen := congrArg List.length h
        have := escapeHtmlList_length_ge cs
        simp only [List.cons_append, List.nil_append, List.length_cons] at hlen
        omega
      · subst h2
        rw [List.cons_append] at h
        injection h with hhead _
        exact absurd hhead (by decide)
      · subst h3
        rw [List.cons_append] at h
        injection h with hhead _
        exact absurd hhead (by decide)
      · subst h4
        rw [List.cons_append] at h
        injection h with hhead _
        exact absurd hhead (by decide)
      · subst h5
        rw [List.cons_append] at h
        injection h with hhead _
        exact absurd hhead (by decide)
      · rw [List.cons_append, List.nil_append] at h
        injection h with _ htail
        intro x hx
        simp only [List.mem_cons] at hx
        rcases hx with rfl | hx
        · exact ⟨h1, h2, h3, h4, h5⟩
        · exact (ih.mp htail) x hx
    · intro hall
      obtain ⟨h1, h2, h3, h4, h5⟩ := hall c (List.mem_cons_self _ _)
      have hcs : escapeHtmlList cs = cs :=
        ih.mpr (fun x hx => hall x (List.mem_cons_of_mem _ hx))
      unfold escapeHtmlList escapeHtmlChar
      rw [if_neg h1, if_neg h2, if_neg h3, if_neg h4, if_neg h5, hcs]
      rfl

theorem stripHtmlGo_append (e t : List Char) (he : ∀ c ∈ e, c ≠ '<') :
    stripHtmlGo (e ++ t) none = e ++ stripHtmlGo t none := by
  induction e with
  | nil => simp
  | cons c cs ih =>
    have hc : c ≠ '<' := he c (List.mem_cons_self _ _)
    simp only [List.cons_append, stripHtmlGo, if_neg hc, List.append_eq]
    rw [ih (fun x hx => he x (List.mem_cons_of_mem _ hx))]

theorem stripHtmlGo_div_wrap (e : List Char) (he : ∀ c ∈ e, c ≠ '<') :
    stripHtmlGo (('<' :: 'd' :: 'i' :: 'v' :: '>' :: []) ++ e
        ++ ('<' :: '/' :: 'd' :: 'i' :: 'v' :: '>' :: [])) none = e := by
  show stripHtmlGo (e ++ ('<' :: '/' :: 'd' :: 'i' :: 'v' :: '>' :: [])) none = e
  rw [stripHtmlGo_append e _ he]
  have hclose : stripHtmlGo ('<' :: '/' :: 'd' :: 'i' :: 'v' :: '>' :: []) none = [] := by decide
  rw [hclose, List.append_nil]

theorem replaceLastAssistantList_roles (c t : String) (msgs : List Message) :
    (replaceLastAssistantList c t msgs).map Message.role = msgs.map Message.role
      ∨ (replaceLastAssistantList c t msgs).map Message.role
          = msgs.map Message.role ++ [Role.assistant] := by
  unfold replaceLastAssistantList
  cases h : rlaAux c t msgs with
  | none => right; simp
  | some out =>
    left
    obtain ⟨l, m, r, hdecomp, _, _, hout⟩ := rlaAux_some c t msgs out h
    subst hdecomp
    subst hout
    simp

theorem replaceLastAssistantList_user_msgs (c t : String) (msgs : List Message) :
    (replaceLastAssistantList c t msgs).filter (fun m => decide (m.role = Role.user))
      = msgs.filter (fun m => decide (m.role = Role.user)) := by
  unfold replaceLastAssistantList
  cases h : rlaAux c t msgs with
  | none => simp
  | some out =>
    obtain ⟨l, m, r, hdecomp, hm, _, hout⟩ := rlaAux_some c t msgs out h
    subst hdecomp
    subst hout
    have hrole : m.role = Role.assistant := hm.1
    simp [List.filter_append, List.filter_cons, hrole]

/-- Claim C1 counterexample: a successful response carrying an `answer`
field whose value is the empty string (and a sources list) does not
replace the placeholder: `if (data.answer)` is a JS truthiness test, so
the placeholder message is left untouched even though the field is
present. -/
theorem C1_counterexample :
    emptyAnswerResp.answer = some ""
    ∧ (resolveSuccess emptyAnswerResp "t1" stPending).messages = stPending.messages
    ∧ stPending.messages.getLast? = some phMsg0
    ∧ phMsg0.content ≠ "<div>" ++ escapeHtml "" ++ "</div>" := by decide

/-- Claim C1 (amended): for every successful `/ask` response carrying a
non-empty `answer` field `X`, the reconciliation replaces the pending
placeholder assistant message's content with the HTML-escaped rendering
of `X`, and wholesale-replaces the source list with the `sources` field,
falling back to `results` when `sources` is absent and to the empty list
when both are absent. -/
theorem C1_amended_reconciliation (d : AskResponse) (X now : String) (st : ChatState)
    (init : List Message) (m : Message)
    (hX : d.answer = some X) (hne : X ≠ "") (hmd : d.markdown = none)
    (hmsgs : st.messages = init ++ [m]) (hm : isTarget m) :
    (resolveSuccess d now st).messages
      = init ++ [{ m with content := "<div>" ++ escapeHtml X ++ "</div>", time := now }]
    ∧ (resolveSuccess d now st).sources = d.sources.getD (d.results.getD []) := by
  have hres : resolveSuccess d now st
      = setSourceList (d.sources.getD (d.results.getD []))
          (replaceLastAssistant ("<div>" ++ escapeHtml X ++ "</div>") now st) := by
    simp only [resolveSuccess, hX, hmd]
    rw [if_neg hne]
  rw [hres]
  refine ⟨?_, rfl⟩
  show replaceLastAssistantList ("<div>" ++ escapeHtml X ++ "</div>") now st.messages = _
  rw [hmsgs]
  exact replaceLastAssistantList_last _ _ _ _ hm

/-- Claim C1 witness: concrete successful response with answer `Paris`
and a one-element sources list, reconciled into a pending session. -/
theorem C1_witness :
    (resolveSuccess answerResp "t1" stPending).messages
      = [userMsg0]
          ++ [{ phMsg0 with content := "<div>" ++ escapeHtml "Paris" ++ "</div>", time := "t1" }]
    ∧ (resolveSuccess answerResp "t1" stPending).sources
      = answerResp.sources.getD (answerResp.results.getD []) :=
  C1_amended_reconciliation answerResp "Paris" "t1" stPending [userMsg0] phMsg0 rfl
    (by decide) rfl rfl (by decide)

/-- Claim C2: for every non-empty submitted query `q` with the controller
not already sending, the send phase appends exactly one user message
holding the escaped `q` wrapped in a div, immediately followed by exactly
one assistant placeholder message carrying the pending/loading marker,
and mutates nothing else in the message or source lists before the
network call resolves. -/
theorem C2_send_appends_user_and_placeholder (q now : String) (st : ChatState)
    (hq : q ≠ "") (hs : st.sending = false) :
    (sendPhase q now st).messages
      = st.messages ++ [⟨Role.user, "<div>" ++ escapeHtml q ++ "</div>", now⟩,
          ⟨Role.assistant, placeholderContent, now⟩]
    ∧ isPlaceholder placeholderContent = true
    ∧ (sendPhase q now st).sources = st.sources := by
  have hguard : ¬(q = "" ∨ st.sending = true) := by simp [hq, hs]
  unfold sendPhase
  rw [if_neg hguard]
  exact ⟨rfl, by decide, rfl⟩

/-- Claim C2 witness: sending `hi` from the idle session state. -/
theorem C2_witness :
    (sendPhase "hi" "t0" stIdle).messages
      = stIdle.messages ++ [⟨Role.user, "<div>" ++ escapeHtml "hi" ++ "</div>", "t0"⟩,
          ⟨Role.assistant, placeholderContent, "t0"⟩]
    ∧ isPlaceholder placeholderContent = true
    ∧ (sendPhase "hi" "t0" stIdle).sources = stIdle.sources :=
  C2_send_appends_user_and_placeholder "hi" "t0" stIdle (by decide) rfl

/-- Claim C3 counterexample: with a request pending (`sending` is true),
submitting a fresh non-empty query is a complete no-op — no second
request is started and no new cancellation token is created — because of
the guard `if (!q || sending) return` at the top of `sendQuery`. -/
theorem C3_counterexample :
    stPending.sending = true
    ∧ sendPhase "hello" "t1" stPending = stPending
    ∧ (sendPhase "hello" "t1" stPending).controllers = stPending.controllers := by decide

/-- Claim C3 (amended): while a query is pending (`sending` set), the
controller blocks new submissions: `sendQuery` returns immediately and
the state, including the controller token list, is unchanged. -/
theorem C3_amended_sending_blocks (q now : String) (st : ChatState)
    (hs : st.sending = true) :
    sendPhase q now st = st := by
  unfold sendPhase
  rw [if_pos (Or.inr hs)]

/-- Claim C3 witness: submitting `hello` while `stPending` is sending. -/
theorem C3_witness : sendPhase "hello" "t1" stPending = stPending :=
  C3_amended_sending_blocks "hello" "t1" stPending rfl

/-- Claim C4 counterexample: for the question `&`, stripping markup from
the stored content recovers the escaped text `&amp;`, not the original
plain text, so the round-trip claimed for all strings fails. -/
theorem C4_counterexample :
    stripHtml ("<div>" ++ escapeHtml "&" ++ "</div>") ≠ "&"
    ∧ stripHtml ("<div>" ++ escapeHtml "&" ++ "</div>") = "&amp;" := by decide

/-- Claim C4 (amended): stripping markup from the stored user-message
content recovers the HTML-escaped question, for every string; this
coincides with the original question exactly when the question contains
none of the characters rewritten by `escapeHtml`. -/
theorem C4_amended_roundtrip (q : String) :
    stripHtml ("<div>" ++ escapeHtml q ++ "</div>") = escapeHtml q
    ∧ (escapeHtml q = q ↔
        ∀ c ∈ q.data, c ≠ '&' ∧ c ≠ '<' ∧ c ≠ '>' ∧ c ≠ quoteChar ∧ c ≠ aposChar) := by
  constructor
  · have hd : ("<div>" ++ escapeHtml q ++ "</div>").data
        = ('<' :: 'd' :: 'i' :: 'v' :: '>' :: []) ++ escapeHtmlList q.data
          ++ ('<' :: '/' :: 'd' :: 'i' :: 'v' :: '>' :: []) := by
      rw [String.data_append, String.data_append]
      rfl
    show (⟨stripHtmlGo ("<div>" ++ escapeHtml q ++ "</div>").data none⟩ : String) = escapeHtml q
    rw [hd]
    exact congrArg String.mk (stripHtmlGo_div_wrap (escapeHtmlList q.data)
      (fun c hc => (escapeHtmlList_no_markup q.data c hc).1))
  · constructor
    · intro h
      exact (escapeHtmlList_eq_self_iff q.data).mp (congrArg String.data h)
    · intro h
      exact String.ext ((escapeHtmlList_eq_self_iff q.data).mpr h)

/-- Claim C4 witness: the round-trip to escaped text at the question `hi`. -/
theorem C4_witness : stripHtml ("<div>" ++ escapeHtml "hi" ++ "</div>") = escapeHtml "hi" :=
  (C4_amended_roundtrip "hi").1

/-- Claim C5: cancelling while the pending placeholder is the last
message aborts every outstanding token (they all move to the aborted
set and the controller list empties), clears the sending flag, replaces
the placeholder with the cancellation notice via the `AbortError`
handler, and never touches the source list, which keeps the previously
completed query's entries. -/
theorem C5_cancel_pending (st : ChatState) (now : String) (tok : Nat)
    (init : List Message) (m : Message)
    (hmsgs : st.messages = init ++ [m]) (hm : isTarget m) :
    (cancelRequest st).aborted = st.aborted ++ st.controllers
    ∧ (cancelRequest st).controllers = []
    ∧ (cancelRequest st).sending = false
    ∧ (resolveAborted tok now (cancelRequest st)).messages
        = init ++ [{ m with content := cancelNotice, time := now }]
    ∧ (resolveAborted tok now (cancelRequest st)).sending = false
    ∧ (resolveAborted tok now (cancelRequest st)).sources = st.sources := by
  refine ⟨rfl, rfl, rfl, ?_, rfl, rfl⟩
  show replaceLastAssistantList cancelNotice now (cancelRequest st).messages = _
  have hcm : (cancelRequest st).messages = init ++ [m] := hmsgs
  rw [hcm]
  exact replaceLastAssistantList_last _ _ _ _ hm

/-- Claim C5 witness: cancelling the pending session fixture. -/
theorem C5_witness :
    (cancelRequest stPending).aborted = stPending.aborted ++ stPending.controllers
    ∧ (cancelRequest stPending).controllers = []
    ∧ (cancelRequest stPending).sending = false
    ∧ (resolveAborted 0 "t1" (cancelRequest stPending)).messages
        = [userMsg0] ++ [{ phMsg0 with content := cancelNotice, time := "t1" }]
    ∧ (resolveAborted 0 "t1" (cancelRequest stPending)).sending = false
    ∧ (resolveAborted 0 "t1" (cancelRequest stPending)).sources = stPending.sources :=
  C5_cancel_pending stPending "t1" 0 [userMsg0] phMsg0 rfl (by decide)

/-- Claim C6: a response with no `answer` field leaves the existing
messages — in particular the placeholder — unmodified (at most appending
a separate markdown message after them), while the source-list
replacement still occurs with the `sources`/`results`/empty fallback. -/
theorem C6_no_answer_keeps_placeholder (d : AskResponse) (now : String) (st : ChatState)
    (hans : d.answer = none) :
    (resolveSuccess d now st).messages = st.messages ++ markdownExtra d now
    ∧ (resolveSuccess d now st).sources = d.sources.getD (d.results.getD []) := by
  cases hmd : d.markdown with
  | none =>
    constructor
    · simp [resolveSuccess, hans, hmd, markdownExtra, setSourceList]
    · simp [resolveSuccess, hans, hmd, setSourceList]
  | some md =>
    by_cases hmd0 : md = ""
    · constructor
      · simp [resolveSuccess, hans, hmd, hmd0, markdownExtra, setSourceList]
      · simp [resolveSuccess, hans, hmd, hmd0, setSourceList]
    · constructor
      · simp [resolveSuccess, hans, hmd, hmd0, markdownExtra, setSourceList, addMessage]
      · simp [resolveSuccess, hans, hmd, hmd0, setSourceList, addMessage]

/-- Claim C6 witness: a response with neither `answer` nor `sources`,
only `results`, against the pending session fixture. -/
theorem C6_witness :
    (resolveSuccess noAnswerResp "t1" stPending).messages
      = stPending.messages ++ markdownExtra noAnswerResp "t1"
    ∧ (resolveSuccess noAnswerResp "t1" stPending).sources
      = noAnswerResp.sources.getD (noAnswerResp.results.getD []) :=
  C6_no_answer_keeps_placeholder noAnswerResp "t1" stPending rfl

/-- Claim C7 counterexample: with the filter `abc` occurring in exactly
one entry's path, two entries are visible, because the filter also
matches the other entry's name (OR semantics across fields), refuting
the claimed "exactly one visible entry". -/
theorem C7_counterexample :
    ([cexSrcA, cexSrcB].countP
        (fun s => hasSubstr (toLowerStr (s.path.getD "")).data (toLowerStr "abc").data)) = 1
    ∧ (visibleSources "abc" [cexSrcA, cexSrcB]).length = 2 := by decide

/-- Claim C7 (amended): the visible entries are exactly those whose name,
path, or reason-detail contains the filter as a case-insensitive
substring (OR semantics); the empty filter shows the full list in
original order; and the number of visible entries equals the number of
entries matching on at least one field — so a filter matched by exactly
one entry yields one visible entry and one matched by none yields zero. -/
theorem C7_amended_filter (sources : List Source) (f : String) (hf : f ≠ "") :
    visibleSources "" sources = sources
    ∧ visibleSources f sources = sources.filter (fun s =>
        hasSubstr (toLowerStr (s.name.getD "")).data (toLowerStr f).data
          || hasSubstr (toLowerStr (s.path.getD "")).data (toLowerStr f).data
          || hasSubstr (toLowerStr (s.reason_detail.getD "")).data (toLowerStr f).data)
    ∧ (visibleSources f sources).length = sources.countP (fun s => matchesFilter f s) := by
  refine ⟨?_, ?_, ?_⟩
  · simp [visibleSources, matchesFilter]
  · simp [visibleSources, matchesFilter, hf]
  · rw [List.countP_eq_length_filter]
    rfl

/-- Claim C7 witness: filtering the two-element fixture list by `a`. -/
theorem C7_witness :
    visibleSources "" [cexSrcA, cexSrcB] = [cexSrcA, cexSrcB]
    ∧ visibleSources "a" [cexSrcA, cexSrcB] = [cexSrcA, cexSrcB].filter (fun s =>
        hasSubstr (toLowerStr (s.name.getD "")).data (toLowerStr "a").data
          || hasSubstr (toLowerStr (s.path.getD "")).data (toLowerStr "a").data
          || hasSubstr (toLowerStr (s.reason_detail.getD "")).data (toLowerStr "a").data)
    ∧ (visibleSources "a" [cexSrcA, cexSrcB]).length
        = [cexSrcA, cexSrcB].countP (fun s => matchesFilter "a" s) :=
  C7_amended_filter [cexSrcA, cexSrcB] "a" (by decide)

/-- Claim C8: for every message sequence, `replaceLastAssistant` either
finds the last (most recent) assistant message matching the
pending/loading marker — with no later match after it — and overwrites
exactly that message's content and timestamp in place, or, when no such
message exists, appends a new assistant message with the given content;
being a total function it never fails. -/
theorem C8_replaceLatestPlaceholder_spec (c t : String) (msgs : List Message) :
    (∃ l m r, msgs = l ++ m :: r ∧ isTarget m ∧ (∀ x ∈ r, ¬ isTarget x)
        ∧ replaceLastAssistantList c t msgs = l ++ { m with content := c, time := t } :: r)
    ∨ ((∀ x ∈ msgs, ¬ isTarget x)
        ∧ replaceLastAssistantList c t msgs = msgs ++ [⟨Role.assistant, c, t⟩]) := by
  cases h : rlaAux c t msgs with
  | none =>
    right
    refine ⟨(rlaAux_eq_none_iff c t msgs).mp h, ?_⟩
    unfold replaceLastAssistantList
    rw [h]
  | some out =>
    left
    obtain ⟨l, m, r, hdecomp, hm, hr, hout⟩ := rlaAux_some c t msgs out h
    refine ⟨l, m, r, hdecomp, hm, hr, ?_⟩
    unfold replaceLastAssistantList
    rw [h, hout]

/-- Claim C9: every Session Store operation preserves the role of every
existing message and their relative order: `addMessage` only appends,
`setSourceList` leaves the messages untouched, and
`replaceLastAssistant` preserves the role sequence (up to appending one
assistant message in the fallback) and leaves the subsequence of user
messages — contents included — exactly unchanged. -/
theorem C9_role_preservation (st : ChatState) (r : Role) (content now c t : String)
    (l : List Source) (msgs : List Message) :
    (addMessage r content now st).messages = st.messages ++ [⟨r, content, now⟩]
    ∧ (setSourceList l st).messages = st.messages
    ∧ ((replaceLastAssistantList c t msgs).map Message.role = msgs.map Message.role
        ∨ (replaceLastAssistantList c t msgs).map Message.role
            = msgs.map Message.role ++ [Role.assistant])
    ∧ (replaceLastAssistantList c t msgs).filter (fun m => decide (m.role = Role.user))
        = msgs.filter (fun m => decide (m.role = Role.user)) :=
  ⟨rfl, rfl, replaceLastAssistantList_roles c t msgs, replaceLastAssistantList_user_msgs c t msgs⟩

/-- Claim C10: for every input string, the escaped output contains no
raw `<`, `>`, double-quote or single-quote character (each escapable
character having been rewritten to its HTML entity), and escaping the
empty (JS falsy) input yields the empty string, so stored user-message
markup never embeds raw user-supplied tag characters. -/
theorem C10_escapeHtml_safety (s : String) :
    escapeHtml "" = ""
    ∧ ∀ c ∈ (escapeHtml s).data, c ≠ '<' ∧ c ≠ '>' ∧ c ≠ quoteChar ∧ c ≠ aposChar :=
  ⟨rfl, fun c hc => escapeHtmlList_no_markup s.data c hc⟩

/-- Claim C10 witness: the ampersand introduced by escaping `<x>` is not
a markup character. -/
theorem C10_witness : '&' ≠ '<' ∧ '&' ≠ '>' ∧ '&' ≠ quoteChar ∧ '&' ≠ aposChar :=
  (C10_escapeHtml_safety "<x>").2 '&' (by decide)
